import Mathlib

/-!
Verification development for the PubMed citation-normalization tool.

The Python source (pubmed_tool) is shallowly embedded here: each pure
transformation (date/author/volume-issue normalizers, the journal/article
record assemblers, the table formatter, the table splitter and the
author-name query composer) is translated into an executable Lean
definition, and the specification's claims about them are settled as
theorems.  Strings are handled through their character lists so that every
definition is computable by the kernel.
-/

namespace PubmedTool

/-! ## Python string primitives (over `List Char`) -/

/-- Python `str.lower()` on a character list. -/
def lowerL (l : List Char) : List Char := l.map Char.toLower

/-- Python `str.strip()`: drop leading and trailing whitespace. -/
def trimL (l : List Char) : List Char :=
  ((l.dropWhile Char.isWhitespace).reverse.dropWhile Char.isWhitespace).reverse

/-- Composition `s.lower().strip()`, as the scraper applies it to raw fields. -/
def lowerStripL (l : List Char) : List Char := trimL (lowerL l)

/-- Python `str.isdigit()`: nonempty and all characters are decimal digits. -/
def isDigitsL (l : List Char) : Bool := !l.isEmpty && l.all Char.isDigit

/-- Accumulator pass of `int()` over a digit string. -/
def digitsVal (acc : Nat) : List Char → Nat
  | [] => acc
  | c :: rest => digitsVal (acc * 10 + (c.toNat - 48)) rest

/-- Python `int()` on a string of decimal digits. -/
def digitsToNat (l : List Char) : Nat := digitsVal 0 l

/-- Python `int()` on a (lowercased, stripped) string as `validators.pmid` uses it:
optional sign followed by digits; `none` models the `ValueError` branch. -/
def pyIntOfString (s : String) : Option Int :=
  let t := trimL s.data
  match t with
  | '-' :: rest =>
    if !rest.isEmpty && rest.all Char.isDigit then some (-(digitsToNat rest : Int)) else none
  | '+' :: rest =>
    if !rest.isEmpty && rest.all Char.isDigit then some ((digitsToNat rest : Int)) else none
  | l => if !l.isEmpty && l.all Char.isDigit then some ((digitsToNat l : Int)) else none

/-- Does the pattern occur at the head of the list (`str.startswith`)? -/
def headMatch : List Char → List Char → Bool
  | _, [] => true
  | [], _ :: _ => false
  | a :: as_, b :: bs => a == b && headMatch as_ bs

/-- Python `pat in s` substring containment. -/
def containsL : List Char → List Char → Bool
  | [], pat => pat.isEmpty
  | a :: rest, pat => headMatch (a :: rest) pat || containsL rest pat

/-- Python `s.split(sep)` for a single-character separator (keeps empty pieces). -/
def splitCharAux (sep : Char) : List Char → List Char → List (List Char)
  | [], acc => [acc.reverse]
  | c :: rest, acc =>
    if c = sep then acc.reverse :: splitCharAux sep rest []
    else splitCharAux sep rest (c :: acc)

def splitChar (l : List Char) (sep : Char) : List (List Char) := splitCharAux sep l []

/-- Python `' '.join(pieces)`. -/
def joinSpace : List (List Char) → List Char
  | [] => []
  | [p] => p
  | p :: rest => p ++ ' ' :: joinSpace rest

/-- Python truthiness of an optional string (`None` and `''` are falsy). -/
def truthy : Option String → Bool
  | none => false
  | some s => !s.data.isEmpty

/-! ## Calendar dates -/

/-- A resolved calendar date (`datetime.date`). -/
structure CalDate where
  year : Nat
  month : Nat
  day : Nat
deriving DecidableEq, Repr

/-- Proleptic-Gregorian leap year, as Python's `datetime` uses. -/
def isLeap (y : Nat) : Bool := (y % 4 == 0 && y % 100 != 0) || y % 400 == 0

/-- Days in a month of a given year. -/
def daysInMonth (y m : Nat) : Nat :=
  if m = 2 then (if isLeap y then 29 else 28)
  else if m = 4 ∨ m = 6 ∨ m = 9 ∨ m = 11 then 30 else 31

/-- The dates `datetime.date` can represent: year 1..9999, valid month/day. -/
def validCalDate (c : CalDate) : Bool :=
  1 ≤ c.year && c.year ≤ 9999 && 1 ≤ c.month && c.month ≤ 12 &&
    1 ≤ c.day && c.day ≤ daysInMonth c.year c.month

/-! ## `format_date` (scraper_functs.py lines 319-438) -/

/-- The loose PubMed date structure: optional Year/Month/Day strings plus the
free-text MedlineDate field; an absent key is `none`. -/
structure DateObj where
  year : Option String := none
  month : Option String := none
  day : Option String := none
  medlineDate : Option String := none
deriving DecidableEq

/-- The `months_dict`: 3-letter month names plus the 4 season abbreviations,
mapped to two-digit month strings (a Python dict, modelled as an
association list). -/
def monthsPairs : List (String × String) :=
  [("jan", "01"), ("feb", "02"), ("mar", "03"),
   ("apr", "04"), ("may", "05"), ("jun", "06"),
   ("jul", "07"), ("aug", "08"), ("sep", "09"),
   ("oct", "10"), ("nov", "11"), ("dec", "12"),
   ("spr", "03"), ("sum", "06"), ("fal", "09"),
   ("win", "11")]

/-- Association-list lookup (the model of Python dict access). -/
def assocLookup : List (String × String) → String → Option String
  | [], _ => none
  | (k, v) :: rest, s => if s = k then some v else assocLookup rest s

def monthsDict (s : String) : Option String := assocLookup monthsPairs s

/-- Year field acceptance: lowercase/strip, then require length ≥ 4 and all
digits (the source rejects only `len(year) < 4 or not year.isdigit()`). -/
def acceptYear : Option String → Option String
  | none => none
  | some s =>
    let y := String.mk (lowerStripL s.data)
    if y.data.length < 4 ∨ !isDigitsL y.data then none else some y

/-- Month field acceptance: a non-numeric token is looked up in
`months_dict`; a numeric token is kept only when its value is in 1..12 AND
its length is < 2 (so every two-digit numeric month is rejected), and is
zero-padded. -/
def acceptMonth : Option String → Option String
  | none => none
  | some s =>
    let m := String.mk (lowerStripL s.data)
    if !isDigitsL m.data && (monthsDict m).isSome then monthsDict m
    else if isDigitsL m.data && 1 ≤ digitsToNat m.data && digitsToNat m.data ≤ 12
        && m.data.length < 2 then
      some ("0" ++ toString (digitsToNat m.data))
    else none

/-- Day field acceptance: numeric, value in `range(1,13)` and length < 2
(the source reuses the month bounds), zero-padded. -/
def acceptDay : Option String → Option String
  | none => none
  | some s =>
    let d := String.mk (lowerStripL s.data)
    if isDigitsL d.data && 1 ≤ digitsToNat d.data && digitsToNat d.data ≤ 12
        && d.data.length < 2 then
      some ("0" ++ toString (digitsToNat d.data))
    else none

/-- Model of `re.search(r'[0-9]{4}', s)`: the first run of four consecutive digits. -/
def fourDigitRun : List Char → Option String
  | a :: b :: c :: d :: rest =>
    if a.isDigit && b.isDigit && c.isDigit && d.isDigit then
      some (String.mk [a, b, c, d])
    else fourDigitRun (b :: c :: d :: rest)
  | _ => none

/-- Model of `datetime.strptime` with format `'%Y/%m/%d'` for the canonical
arguments `format_date` supplies (`%Y` consumes exactly four digits; the
constructor validates the triple, rejecting year 0 and out-of-range days). -/
def strptimeYMD (y m d : String) : Option CalDate :=
  if y.data.length = 4 && isDigitsL y.data && isDigitsL m.data && isDigitsL d.data
      && 1 ≤ digitsToNat y.data
      && 1 ≤ digitsToNat m.data && digitsToNat m.data ≤ 12
      && 1 ≤ digitsToNat d.data
      && digitsToNat d.data ≤ daysInMonth (digitsToNat y.data) (digitsToNat m.data) then
    some ⟨digitsToNat y.data, digitsToNat m.data, digitsToNat d.data⟩
  else none

/-- Model of `datetime.strptime` with format `'%Y/%m'`: missing day rounds to the 1st. -/
def strptimeYM (y m : String) : Option CalDate :=
  if y.data.length = 4 && isDigitsL y.data && isDigitsL m.data
      && 1 ≤ digitsToNat y.data
      && 1 ≤ digitsToNat m.data && digitsToNat m.data ≤ 12 then
    some ⟨digitsToNat y.data, digitsToNat m.data, 1⟩
  else none

/-- Model of `datetime.strptime` with format `'%Y'`: year only rounds to January 1. -/
def strptimeY (y : String) : Option CalDate :=
  if y.data.length = 4 && isDigitsL y.data && 1 ≤ digitsToNat y.data then
    some ⟨digitsToNat y.data, 1, 1⟩
  else none

/-- The `format_date` normalizer: validate Year/Month/Day, fall back to a MedlineDate scan
when the year is missing (there the month match is compared as a match
object against the dict keys and so never survives), then format.
Returns `none` for a missing or invalid date. -/
def format_date (d : DateObj) : Option CalDate :=
  let year0 := acceptYear d.year
  let month0 := acceptMonth d.month
  let day := acceptDay d.day
  let ym : Option String × Option String :=
    match year0 with
    | some y => (some y, month0)
    | none =>
      match d.medlineDate with
      | none => (none, month0)
      | some md => (fourDigitRun md.data, none)
  match ym.1, ym.2, day with
  | some y, some m, some dd => strptimeYMD y m dd
  | some y, some m, none => strptimeYM y m
  | some y, none, _ => strptimeY y
  | none, _, _ => none

/-! ## `format_author` (scraper_functs.py lines 440-546) -/

/-- One entry of a PubMed AuthorList: the three optional name fields. -/
structure AuthorDict where
  foreName : Option String := none
  initials : Option String := none
  lastName : Option String := none
deriving DecidableEq

/-- The author dictionary `format_author` returns.  The source stores
`order` as `str(index+1)`; its numeric content is kept here (the table
formatter casts it back to an integer). -/
structure NameDict where
  order : Nat
  first : Option String := none
  last : Option String := none
  initials : Option String := none
deriving DecidableEq

/-- Python `str.replace(' ', '')`. -/
def removeSpacesL (l : List Char) : List Char := l.filter (fun c => c ≠ ' ')

/-- Cleaning `name.strip().replace('.', '').replace(',', '')` applied to each piece of
a split forename. -/
def cleanPiece (l : List Char) : List Char :=
  (trimL l).filter (fun c => c ≠ '.' && c ≠ ',')

/-- The `format_author` normalizer: lowercase/strip the fields, drop a forename that merely
repeats the initials, split a spaced forename into pieces, reconstruct the
real first name when the pieces' initials match the given initials, and
derive missing initials from the forename. -/
def format_author (a : AuthorDict) (index : Nat) : NameDict :=
  let first0 : Option (List Char) :=
    match a.foreName with
    | some s => if s.data.length > 0 then some (lowerStripL s.data) else none
    | none => none
  let initials0 : Option (List Char) :=
    match a.initials with
    | some s => if s.data.length > 0 then some (removeSpacesL (lowerStripL s.data)) else none
    | none => none
  let last0 : Option (List Char) :=
    match a.lastName with
    | some s => if s.data.length > 0 then some (lowerStripL s.data) else none
    | none => none
  -- if the first name is the initials with spaces, remove it
  let first1 : Option (List Char) :=
    match first0 with
    | some f =>
      if !f.isEmpty &&
          (match initials0 with | some i => removeSpacesL f == i | none => false) then
        none
      else some f
    | none => none
  -- if there is a space in the first name, examine its pieces
  let fp : Option (List Char) × Option (List Char) :=
    match first1 with
    | some f =>
      if !f.isEmpty && f.contains ' ' then
        let pieces := ((splitChar f ' ').map cleanPiece).filter (fun p => !p.isEmpty)
        let possInitials := pieces.map (fun p => p.headD ' ')
        let pieces2 := pieces.filter (fun p => p.length > 1)
        let f' :=
          if (match initials0 with | some i => !i.isEmpty | none => false) &&
              (match initials0 with | some i => possInitials == i | none => false) then
            joinSpace pieces2
          else f
        (some f', some possInitials)
      else (some f, none)
    | none => (none, none)
  -- if initials do not exist, replace them from the first name
  let initials1 : Option (List Char) :=
    if !(match initials0 with | some i => !i.isEmpty | none => false) then
      match fp.2 with
      | some p =>
        if !p.isEmpty then some p
        else
          match fp.1 with
          | some f => if !f.isEmpty then some [f.headD ' '] else initials0
          | none => initials0
      | none =>
        match fp.1 with
        | some f => if !f.isEmpty then some [f.headD ' '] else initials0
        | none => initials0
    else initials0
  ⟨index + 1, fp.1.map String.mk, last0.map String.mk, initials1.map String.mk⟩

/-! ## `issue_vol` (scraper_functs.py lines 548-654) -/

/-- The triple `issue_vol` returns: the numeric volume/issue, the classified
designator kind, and the leftover auxiliary value. -/
structure IVResult where
  vol : Option Nat
  otherType : Option String
  otherVal : Option String
deriving DecidableEq

/-- Model of `str(in_vol).replace(r'\xa0', ' ')`: the raw-string pattern is the
literal four characters backslash-x-a-0, replaced left to right. -/
def replaceXa0 : List Char → List Char
  | '\\' :: 'x' :: 'a' :: '0' :: rest => ' ' :: replaceXa0 rest
  | c :: rest => c :: replaceXa0 rest
  | [] => []

/-- The `issue_vol` normalizer: normalize the token; a purely numeric token is the number;
otherwise split into leading digits / non-digit middle / trailing digits
(the anchored greedy groups of `^([0-9]*)([^0-9]*)([0-9]*)`), take the
number from the leading group (or the trailing group after a `vol`/`iss`
marker), classify the middle, and keep unused trailing digits as the
auxiliary value. -/
def issue_vol (in_vol : String) : IVResult :=
  let s := trimL (lowerL (replaceXa0 in_vol.data))
  if s.any (fun c => !c.isDigit) then
    let g0 := s.takeWhile Char.isDigit
    let r1 := s.dropWhile Char.isDigit
    let g1 := r1.takeWhile (fun c => !c.isDigit)
    let g2 := (r1.dropWhile (fun c => !c.isDigit)).takeWhile Char.isDigit
    let volMarker := containsL g1 "vol".data || containsL g1 "iss".data
    let vol : Option Nat :=
      if !g0.isEmpty then some (digitsToNat g0)
      else if volMarker && isDigitsL g2 then some (digitsToNat g2)
      else if g1.isEmpty && !g2.isEmpty then some (digitsToNat g2)
      else none
    let anyHas := fun (pat : List Char) =>
      containsL g0 pat || containsL g1 pat || containsL g2 pat
    let otherType : Option String :=
      if g1 = ['-'] then some "Issue Range"
      else if anyHas "sup".data then some "Supplement"
      else if anyHas "part".data || anyHas "pt".data || anyHas "cz".data then some "Part"
      else if anyHas "spec".data then some "Special No."
      else none
    let otherVal : Option String :=
      if !(volMarker && isDigitsL g2) then some (String.mk g2) else none
    ⟨vol, otherType, otherVal⟩
  else if isDigitsL s then ⟨some (digitsToNat s), none, none⟩
  else ⟨none, none, none⟩

/-! ## `journal_content` (scraper_functs.py lines 656-746) -/

/-- Slice `['Journal']['JournalIssue']`: raw Volume/Issue tokens and the journal
publication date (an absent or empty `PubDate` dict is `none`; `format_date`
of an all-empty object is `none` either way). -/
structure JournalIssueRec where
  volume : Option String := none
  issue : Option String := none
  pubDate : Option DateObj := none
deriving DecidableEq

/-- Slice `['Article']['Journal']`. -/
structure JournalRec where
  title : Option String := none
  isoAbbreviation : Option String := none
  journalIssue : Option JournalIssueRec := none
deriving DecidableEq

/-- The dictionary `journal_content` assembles. -/
structure JourData where
  journal : Option String
  isoabbrev : Option String
  issue : Option Nat
  volume : Option Nat
  other_type : Option String
  other_val : Option String
  pubdate : Option CalDate
deriving DecidableEq

/-- Raw string field presence test `key in record and len(record[key]) > 0`,
yielding the lowercased/stripped value. -/
def presentLowerStrip : Option String → Option String
  | some s => if s.data.length > 0 then some (String.mk (lowerStripL s.data)) else none
  | none => none

/-- The `journal_content` assembler: title and ISO abbreviation, then the JournalIssue
items.  The Issue token is resolved first and the Volume token second, and
the Volume resolution rewrites `other_type`/`other_val` whenever a Volume
field is present and nonempty. -/
def journal_content (record : JournalRec) : JourData :=
  let journal := presentLowerStrip record.title
  let isoabbrev := presentLowerStrip record.isoAbbreviation
  match record.journalIssue with
  | none => ⟨journal, isoabbrev, none, none, none, none, none⟩
  | some ji =>
    let issuePart : Option Nat × Option String × Option String :=
      match ji.issue with
      | some s =>
        if s.data.length > 0 then
          let r := issue_vol s
          (r.vol, r.otherType, r.otherVal)
        else (none, none, none)
      | none => (none, none, none)
    let volPart : Option Nat × Option String × Option String :=
      match ji.volume with
      | some s =>
        if s.data.length > 0 then
          let r := issue_vol s
          (r.vol, r.otherType, r.otherVal)
        else (none, issuePart.2.1, issuePart.2.2)
      | none => (none, issuePart.2.1, issuePart.2.2)
    let pubdate :=
      match ji.pubDate with
      | some dobj => format_date dobj
      | none => none
    ⟨journal, isoabbrev, issuePart.1, volPart.1, volPart.2.1, volPart.2.2, pubdate⟩

/-! ## `article_content` and `single_record` (scraper_functs.py lines 748-965) -/

/-- Slice `['Article']['Pagination']` (the `MedlinePgn` fallback regex parse is a
raw-string pattern no claim exercises and is not modelled). -/
structure PaginationRec where
  startPage : Option String := none
  endPage : Option String := none
deriving DecidableEq

/-- Slice `['Article']`: the article-level content of a MedlineCitation. -/
structure ArticleRec where
  articleTitle : Option String := none
  abstractTexts : Option (List String) := none
  articleDate : List DateObj := []
  pagination : Option PaginationRec := none
  authorList : List AuthorDict := []
  language : Option (List String) := none
  journal : JournalRec := {}
deriving DecidableEq

/-- The flat dictionary `article_content` produces. -/
structure ArticleData where
  title : Option String
  abstract : Option String
  page_start : Option String
  page_end : Option String
  authors : Option (List NameDict)
  language : Option (List String)
  journal : Option String
  isoabbrev : Option String
  issue : Option Nat
  volume : Option Nat
  other_type : Option String
  other_val : Option String
  pubdate : Option CalDate
deriving DecidableEq

/-- Python `' '.join(texts)`. -/
def joinSpaceStr (l : List String) : String :=
  String.mk (joinSpace (l.map String.data))

/-- The `article_content` assembler: title, abstract, pagination (end page defaults to the
start page), the author list in order, languages, the journal-level items,
and the journal-date-over-article-date precedence rule. -/
def article_content (record : ArticleRec) : ArticleData :=
  let title := presentLowerStrip record.articleTitle
  let abstract : Option String :=
    match record.abstractTexts with
    | some l => if l.length > 0 then some (joinSpaceStr l) else none
    | none => none
  let articleDate : Option CalDate :=
    match record.articleDate with
    | [] => none
    | d :: _ => format_date d
  let pages : Option String × Option String :=
    match record.pagination with
    | some p =>
      let ps : Option String :=
        match p.startPage with
        | some s => if s.data.length > 0 then some s else none
        | none => none
      let pe : Option String :=
        match p.endPage with
        | some s => if s.data.length > 0 then some s else none
        | none => none
      (ps, if pe.isNone && ps.isSome then ps else pe)
    | none => (none, none)
  let authors : Option (List NameDict) :=
    if record.authorList.length > 0 then
      some (record.authorList.enum.map (fun p => format_author p.2 p.1))
    else none
  let language : Option (List String) :=
    match record.language with
    | some l => if l.length > 0 then some l else none
    | none => none
  let jour := journal_content record.journal
  let pubdate :=
    match jour.pubdate with
    | some d => some d
    | none => articleDate
  ⟨title, abstract, pages.1, pages.2, authors, language,
    jour.journal, jour.isoabbrev, jour.issue, jour.volume,
    jour.other_type, jour.other_val, pubdate⟩

/-- The `validators.pmid` check: convert through `str(int(·))` (removing leading
zeros), require 1-8 characters and a nonzero value. -/
def pmid_validate (s : String) : Option Int :=
  match pyIntOfString (String.mk (lowerStripL s.data)) with
  | none => none
  | some i =>
    let t := toString i
    if t.data.length < 1 ∨ t.data.length > 8 then none
    else if t = "0" then none
    else some i

/-- A MedlineCitation as `single_record` consumes it. -/
structure MedlineCitation where
  pmid : Option String := none
  keywordList : List (List String) := []
  article : ArticleRec := {}
deriving DecidableEq

/-- The flat record `single_record` produces for the data frame. -/
structure Content where
  pmid : Option Int
  keywords : Option (List String)
  title : Option String
  abstract : Option String
  page_start : Option String
  page_end : Option String
  authors : Option (List NameDict)
  language : Option (List String)
  journal : Option String
  isoabbrev : Option String
  issue : Option Nat
  volume : Option Nat
  other_type : Option String
  other_val : Option String
  pubdate : Option CalDate
deriving DecidableEq

/-- First-occurrence deduplication (pandas `drop_duplicates`; also the
deduplicated keyword set, whose Python iteration order is immaterial to
every claim). -/
def dedupFirstAux [DecidableEq α] (seen : List α) : List α → List α
  | [] => []
  | a :: rest =>
    if a ∈ seen then dedupFirstAux seen rest
    else a :: dedupFirstAux (a :: seen) rest

def dedupFirst [DecidableEq α] (l : List α) : List α := dedupFirstAux [] l

/-- The `single_record` assembler: validated PMID, keywords merged across groups into a
deduplicated collection, and the `['Article']` content. -/
def single_record (record : MedlineCitation) : Content :=
  let pmid : Option Int :=
    match record.pmid with
    | some s => if s.data.length > 0 then pmid_validate s else none
    | none => none
  let keywords : Option (List String) :=
    if record.keywordList.length > 0 then
      some (dedupFirst ((record.keywordList.flatten).map
        (fun s => String.mk (lowerStripL s.data))))
    else none
  let a := article_content record.article
  ⟨pmid, keywords, a.title, a.abstract, a.page_start, a.page_end, a.authors,
    a.language, a.journal, a.isoabbrev, a.issue, a.volume,
    a.other_type, a.other_val, a.pubdate⟩

/-! ## `format_df` (pubmed_tool.py lines 40-143) -/

/-- Empty-string-to-NA normalization (`t_df.replace('', None)`). -/
def emptyToNone : Option String → Option String
  | some s => if s = "" then none else some s
  | o => o

/-- The paper-level (non-author) columns carried through the formatter.
The language code→name translation uses a live web lookup (an external
collaborator per the spec) and is not modelled; the column passes through. -/
structure PaperCols where
  title : Option String
  pubdate : Option CalDate
  keywords : Option String
  journal : Option String
  isoabbrev : Option String
  volume : Option Nat
  issue : Option Nat
  page_start : Option String
  page_end : Option String
  language : Option String
  abstract : Option String
  other_type : Option String
  other_val : Option String
deriving DecidableEq

/-- One article as the formatter receives it: its id, paper columns, and the
embedded author list (absent when the article listed no authors). -/
structure InRec where
  pmid : Int
  paper : PaperCols
  authors : Option (List NameDict)
deriving DecidableEq

/-- One exploded row (one author of one paper).  `ordOpt` is the `order`
column: filled with 0 where the author dictionary had none, and reset to
null for the "None Listed" sentinel. -/
structure Row where
  pmid : Int
  paper : PaperCols
  ordOpt : Option Nat
  first : Option String
  last : Option String
  initials : Option String
deriving DecidableEq

/-- A finished formatter row. -/
structure FRow where
  pmid : Int
  paper : PaperCols
  firstauthor : Bool
  first : Option String
  last : Option String
  initials : Option String
  numauthors : Nat
deriving DecidableEq

/-- Keyword column munging: NA becomes `'[]'` and set braces become brackets. -/
def braceToBracket (c : Char) : Char :=
  if c = Char.ofNat 123 then '[' else if c = Char.ofNat 125 then ']' else c

def keywordsStep : Option String → Option String
  | none => some "[]"
  | some s => some (String.mk (s.data.map braceToBracket))

/-- Empty-string and keyword normalization of the paper columns (lines
62-72 and 84 of the source). -/
def normPaper (p : PaperCols) : PaperCols :=
  ⟨emptyToNone p.title, p.pubdate, keywordsStep (emptyToNone p.keywords),
    emptyToNone p.journal, emptyToNone p.isoabbrev, p.volume, p.issue,
    emptyToNone p.page_start, emptyToNone p.page_end, emptyToNone p.language,
    emptyToNone p.abstract, emptyToNone p.other_type, emptyToNone p.other_val⟩

/-- Explosion of one article: a missing (or empty) author list yields the
single fill row `[{'last': None}]` whose order is filled with 0; a real
author entry yields one row per author. -/
def explodeOne (r : InRec) : List Row :=
  match r.authors with
  | none => [⟨r.pmid, normPaper r.paper, some 0, none, none, none⟩]
  | some [] => [⟨r.pmid, normPaper r.paper, some 0, none, none, none⟩]
  | some l =>
    l.map (fun a =>
      ⟨r.pmid, normPaper r.paper, some a.order,
        emptyToNone a.first, emptyToNone a.last, emptyToNone a.initials⟩)

/-- One `t_df['pmid'].value_counts()` entry for one id. -/
def pmidCount (rows : List Row) (p : Int) : Nat :=
  (rows.filter (fun r => r.pmid = p)).length

/-- Per-row update for articles with no listed author (their id occurs
exactly once in the exploded table): null the order and set the sentinel
last name. -/
def noneListedFun (rows : List Row) (r : Row) : Row :=
  if r.last = none ∧ pmidCount rows r.pmid = 1 then
    { r with ordOpt := none, last := some "None Listed" }
  else r

def stepNoneListed (rows : List Row) : List Row := rows.map (noneListedFun rows)

/-- Comparison `order < 2` on the nullable order column; a null order compares false. -/
def ordBelowTwo : Option Nat → Bool
  | some k => k < 2
  | none => false

/-- Per-row update for rows with `order < 2` and no last name (failed
author capture on a multi-row article). -/
def failedCaptureFun (r : Row) : Row :=
  if ordBelowTwo r.ordOpt ∧ r.last = none then
    { r with last := some "Failed Capture" }
  else r

def stepFailedCapture (rows : List Row) : List Row := rows.map failedCaptureFun

/-- Row drop `dropna(subset=['last'])`. -/
def stepDropNoLast (rows : List Row) : List Row :=
  rows.filter (fun r => r.last ≠ none)

/-- Author counts per id (0 for the "None Listed" sentinel) and the
order→firstauthor boolean conversion. -/
def finalizeFun (rows : List Row) (r : Row) : FRow :=
  ⟨r.pmid, r.paper, r.ordOpt = some 1, r.first, r.last, r.initials,
    if r.last = some "None Listed" then 0 else pmidCount rows r.pmid⟩

def finalizeRows (rows : List Row) : List FRow := rows.map (finalizeFun rows)

/-- Exploded author-per-article rows of a whole batch. -/
def rowsOf (batch : List InRec) : List Row := batch.flatMap explodeOne

/-- Rows after sentinel marking, failed-capture marking and the drop of
rows still lacking a last name. -/
def preRows (batch : List InRec) : List Row :=
  stepDropNoLast (stepFailedCapture (stepNoneListed (rowsOf batch)))

/-- The `format_df` table formatter: explode authors into rows, mark
zero-author articles and failed captures, drop unresolved rows, count
authors, flag first authors. -/
def format_df (batch : List InRec) : List FRow := finalizeRows (preRows batch)

/-! ## `split_tables` (sql_functs.py lines 29-113) -/

/-- A Papers-relation row: everything but the author columns, keyed by id. -/
structure PaperRow where
  pmid : Int
  paper : PaperCols
  numauthors : Nat
deriving DecidableEq

/-- An Authors-relation row keyed by the derived full-name string. -/
structure AuthorRow where
  fullname : Option String
  first : Option String
  last : Option String
  initials : Option String
deriving DecidableEq

/-- An AuthorshipPairs-relation row. -/
structure PairRow where
  pmid : Int
  fullname : Option String
  firstauthor : Bool
deriving DecidableEq

/-- Key derivation `initials.str.cat([last, first], sep=' ')`: the derived author key;
null when any name field is null (pandas propagates NA through `cat`). -/
def fullnameKey (initials last first : Option String) : Option String :=
  match initials, last, first with
  | some i, some l, some f => some (i ++ " " ++ l ++ " " ++ f)
  | _, _, _ => none

def rowFullname (r : FRow) : Option String := fullnameKey r.initials r.last r.first

/-- First-occurrence deduplication by a derived key, ignoring the rest of
the row (pandas `drop_duplicates` after `set_index`, which compares only
the data columns). -/
def dedupByKeyAux [DecidableEq β] (key : α → β) (seen : List β) : List α → List α
  | [] => []
  | a :: rest =>
    if key a ∈ seen then dedupByKeyAux key seen rest
    else a :: dedupByKeyAux key (key a :: seen) rest

def dedupByKey [DecidableEq β] (key : α → β) (l : List α) : List α :=
  dedupByKeyAux key [] l

/-- The name-column triple the Authors table is deduplicated on. -/
def nameTriple (a : AuthorRow) : Option String × Option String × Option String :=
  (a.first, a.last, a.initials)

/-- The `split_tables` splitter: project and deduplicate the Papers rows, build the
author key, deduplicate the pairs on all three of their columns, and
deduplicate the Authors rows on the name columns. -/
def split_tables (t : List FRow) : List PaperRow × List AuthorRow × List PairRow :=
  let papers := dedupFirst (t.map (fun r => PaperRow.mk r.pmid r.paper r.numauthors))
  let pairs := dedupFirst (t.map (fun r => PairRow.mk r.pmid (rowFullname r) r.firstauthor))
  let authors := dedupByKey nameTriple
    (t.map (fun r => AuthorRow.mk (rowFullname r) r.first r.last r.initials))
  (papers, authors, pairs)

/-! ## `query` (sql_functs.py lines 358-570) -/

/-- SQL `==` over nullable text: a comparison against NULL is not true. -/
def sqlEqOpt : Option String → Option String → Bool
  | some a, some b => a = b
  | _, _ => false

/-- The `FROM papers, pairs, authors WHERE pairs.fullname == authors.fullname
AND papers.pmid == pairs.pmid` join of the no-term query. -/
def joinCombos (papers : List PaperRow) (pairs : List PairRow)
    (authors : List AuthorRow) : List (PaperRow × PairRow × AuthorRow) :=
  papers.flatMap (fun p => pairs.flatMap (fun pr => authors.filterMap (fun a =>
    if sqlEqOpt pr.fullname a.fullname && p.pmid == pr.pmid then some (p, pr, a)
    else none)))

/-- Grouping `GROUP BY pairs_authorpapers.fullname`: one result row per distinct
full-name key among the joined rows. -/
def queryNoTermGroups (papers : List PaperRow) (pairs : List PairRow)
    (authors : List AuthorRow) : List (Option String) :=
  dedupFirst ((joinCombos papers pairs authors).map (fun c => c.2.1.fullname))

/-- The row count the no-term query returns. -/
def queryNoTermCount (papers : List PaperRow) (pairs : List PairRow)
    (authors : List AuthorRow) : Nat :=
  (queryNoTermGroups papers pairs authors).length

/-- The four optional author-name search terms of `query`. -/
structure QueryTerms where
  any_nm : Option String := none
  last_nm : Option String := none
  first_nm : Option String := none
  initials_nm : Option String := none
deriving DecidableEq

/-- Normalization `s.strip().lower()` applied to a search term. -/
def normTerm (s : String) : String := String.mk (lowerL (trimL s.data))

/-- The term-normalization block of `query` (lines 427-434): each truthy
term is stripped and lowercased, but the first-name and initials
assignments read `last_nm` instead of their own variable.  `none` models
the `AttributeError` (caught, the query aborts) hit when `last_nm` is
`None` while a first-name or initials term is truthy. -/
def effTerms (t : QueryTerms) : Option QueryTerms :=
  let last1 : Option String :=
    if truthy t.last_nm then (t.last_nm.map normTerm) else t.last_nm
  let first1 : Option (Option String) :=
    if truthy t.first_nm then
      match last1 with
      | some s => some (some (normTerm s))
      | none => none
    else some t.first_nm
  let initials1 : Option (Option String) :=
    if truthy t.initials_nm then
      match last1 with
      | some s => some (some (normTerm s))
      | none => none
    else some t.initials_nm
  let any1 : Option String :=
    if truthy t.any_nm then (t.any_nm.map normTerm) else t.any_nm
  match first1, initials1 with
  | some f, some i => some ⟨any1, last1, f, i⟩
  | _, _ => none

/-! ## Supporting lemmas: digit strings and the date normalizer -/

lemma digitsVal_nil (acc : Nat) : digitsVal acc [] = acc := rfl

lemma digitsVal_cons (acc : Nat) (c : Char) (rest : List Char) :
    digitsVal acc (c :: rest) = digitsVal (acc * 10 + (c.toNat - 48)) rest := rfl

lemma char_digit_toNat {c : Char} (h : c.isDigit = true) :
    48 ≤ c.toNat ∧ c.toNat ≤ 57 := by
  simpa [Char.isDigit] using h

lemma digitsVal_lt :
    ∀ (l : List Char) (acc : Nat), (∀ c ∈ l, c.isDigit = true) →
      digitsVal acc l < (acc + 1) * 10 ^ l.length := by
  intro l
  induction l with
  | nil => intro acc _; simp [digitsVal_nil]
  | cons c rest ih =>
    intro acc h
    have hc := char_digit_toNat (h c (by simp))
    have hrest : ∀ x ∈ rest, x.isDigit = true := fun x hx => h x (by simp [hx])
    have hstep := ih (acc * 10 + (c.toNat - 48)) hrest
    have hkey : acc * 10 + (c.toNat - 48) + 1 ≤ (acc + 1) * 10 := by omega
    have hmul : (acc * 10 + (c.toNat - 48) + 1) * 10 ^ rest.length
        ≤ ((acc + 1) * 10) * 10 ^ rest.length := mul_le_mul_right' hkey _
    have hlen : ((acc + 1) * 10) * 10 ^ rest.length
        = (acc + 1) * 10 ^ (c :: rest).length := by
      rw [List.length_cons, pow_succ]
      ring
    rw [digitsVal_cons]
    exact lt_of_lt_of_le hstep (hlen ▸ hmul)

lemma digitsToNat_lt (l : List Char) (h : ∀ c ∈ l, c.isDigit = true) :
    digitsToNat l < 10 ^ l.length := by
  simpa [digitsToNat] using digitsVal_lt l 0 h

lemma isDigitsL_all {l : List Char} (h : isDigitsL l = true) :
    ∀ c ∈ l, c.isDigit = true := by
  simp only [isDigitsL, Bool.and_eq_true, List.all_eq_true] at h
  exact h.2

lemma digitsToNat_le_nine (l : List Char) (h : ∀ c ∈ l, c.isDigit = true)
    (hl : l.length ≤ 1) : digitsToNat l ≤ 9 := by
  have h1 := digitsToNat_lt l h
  have h10 : 10 ^ l.length ≤ 10 ^ 1 := Nat.pow_le_pow_right (by omega) hl
  simp only [pow_one] at h10
  omega

lemma digitsToNat_le_9999 (l : List Char) (h : ∀ c ∈ l, c.isDigit = true)
    (hl : l.length = 4) : digitsToNat l ≤ 9999 := by
  have h1 := digitsToNat_lt l h
  rw [hl] at h1
  norm_num at h1
  omega

/-- Canonical two-digit month strings as the acceptance step emits them. -/
def monthStrings : List String :=
  ["01", "02", "03", "04", "05", "06", "07", "08", "09", "10", "11", "12"]

/-- Canonical two-digit day strings the acceptance step can emit. -/
def dayStrings : List String :=
  ["01", "02", "03", "04", "05", "06", "07", "08", "09"]

lemma data_mk (l : List Char) : (String.mk l).data = l := rfl

lemma assocLookup_mem_snd :
    ∀ (l : List (String × String)) (a b : String),
      assocLookup l a = some b → b ∈ l.map Prod.snd := by
  intro l
  induction l with
  | nil => intro a b h; simp [assocLookup] at h
  | cons p rest ih =>
    intro a b h
    obtain ⟨k, v⟩ := p
    rw [show assocLookup ((k, v) :: rest) a = if a = k then some v else assocLookup rest a
        from rfl] at h
    split at h
    · injection h with h'
      subst h'
      simp
    · simp only [List.map_cons, List.mem_cons]
      exact Or.inr (ih a b h)

lemma monthsDict_mem {s r : String} (h : monthsDict s = some r) : r ∈ monthStrings := by
  have hp : r ∈ monthsPairs.map Prod.snd := assocLookup_mem_snd monthsPairs s r h
  have hall : ∀ x ∈ monthsPairs.map Prod.snd, x ∈ monthStrings := by decide
  exact hall _ hp

lemma monthStrings_spec :
    ∀ m ∈ monthStrings, m.data.length = 2 ∧ isDigitsL m.data = true ∧
      1 ≤ digitsToNat m.data ∧ digitsToNat m.data ≤ 12 := by decide

lemma dayStrings_spec :
    ∀ d ∈ dayStrings, d.data.length = 2 ∧ isDigitsL d.data = true ∧
      1 ≤ digitsToNat d.data ∧ digitsToNat d.data ≤ 9 := by decide

lemma acceptMonth_canon : ∀ {o : Option String} {m : String},
    acceptMonth o = some m → m ∈ monthStrings := by
  intro o m h
  match o with
  | none => simp [acceptMonth] at h
  | some s =>
    simp only [acceptMonth, data_mk] at h
    split at h
    · exact monthsDict_mem h
    · split at h
      · rename_i hcond
        simp only [Bool.and_eq_true, decide_eq_true_eq, and_assoc] at hcond
        obtain ⟨hdig, h1, h12, hlen⟩ := hcond
        have hle9 : digitsToNat (lowerStripL s.data) ≤ 9 :=
          digitsToNat_le_nine _ (isDigitsL_all hdig) (by omega)
        set n := digitsToNat (lowerStripL s.data) with hn
        injection h with h'
        subst h'
        interval_cases n <;> decide
      · exact absurd h (by simp)

lemma acceptDay_canon : ∀ {o : Option String} {d : String},
    acceptDay o = some d → d ∈ dayStrings := by
  intro o d h
  match o with
  | none => simp [acceptDay] at h
  | some s =>
    simp only [acceptDay, data_mk] at h
    split at h
    · rename_i hcond
      simp only [Bool.and_eq_true, decide_eq_true_eq, and_assoc] at hcond
      obtain ⟨hdig, h1, h12, hlen⟩ := hcond
      have hle9 : digitsToNat (lowerStripL s.data) ≤ 9 :=
        digitsToNat_le_nine _ (isDigitsL_all hdig) (by omega)
      set n := digitsToNat (lowerStripL s.data) with hn
      injection h with h'
      subst h'
      interval_cases n <;> decide
    · exact absurd h (by simp)

lemma acceptYear_spec : ∀ {o : Option String} {y : String},
    acceptYear o = some y → isDigitsL y.data = true ∧ 4 ≤ y.data.length := by
  intro o y h
  match o with
  | none => simp [acceptYear] at h
  | some s =>
    simp only [acceptYear, data_mk] at h
    split at h
    · exact absurd h (by simp)
    · rename_i hcond
      push_neg at hcond
      injection h with h'
      subst h'
      simp only [data_mk]
      refine ⟨by simpa using hcond.2, by omega⟩

lemma daysInMonth_ge (y m : Nat) : 28 ≤ daysInMonth y m := by
  unfold daysInMonth
  split
  · split <;> omega
  · split <;> omega

lemma daysInMonth_le (y m : Nat) : daysInMonth y m ≤ 31 := by
  unfold daysInMonth
  split
  · split <;> omega
  · split <;> omega

lemma strptimeYMD_valid {y m d : String} {c : CalDate}
    (h : strptimeYMD y m d = some c) :
    validCalDate c = true ∧
      c = ⟨digitsToNat y.data, digitsToNat m.data, digitsToNat d.data⟩ := by
  unfold strptimeYMD at h
  split at h
  · rename_i hc
    simp only [Bool.and_eq_true, decide_eq_true_eq, and_assoc] at hc
    obtain ⟨hy4, hyd, hmd, hdd, hy1, hm1, hm12, hd1, hdim⟩ := hc
    injection h with h'
    subst h'
    have hyle := digitsToNat_le_9999 _ (isDigitsL_all hyd) hy4
    refine ⟨?_, rfl⟩
    simp only [validCalDate, Bool.and_eq_true, decide_eq_true_eq, and_assoc]
    exact ⟨hy1, hyle, hm1, hm12, hd1, hdim⟩
  · exact absurd h (by simp)

lemma strptimeYM_valid {y m : String} {c : CalDate}
    (h : strptimeYM y m = some c) :
    validCalDate c = true ∧ c = ⟨digitsToNat y.data, digitsToNat m.data, 1⟩ := by
  unfold strptimeYM at h
  split at h
  · rename_i hc
    simp only [Bool.and_eq_true, decide_eq_true_eq, and_assoc] at hc
    obtain ⟨hy4, hyd, hmd, hy1, hm1, hm12⟩ := hc
    injection h with h'
    subst h'
    have hyle := digitsToNat_le_9999 _ (isDigitsL_all hyd) hy4
    refine ⟨?_, rfl⟩
    simp only [validCalDate, Bool.and_eq_true, decide_eq_true_eq, and_assoc]
    exact ⟨hy1, hyle, hm1, hm12, le_refl 1, le_trans (by omega) (daysInMonth_ge _ _)⟩
  · exact absurd h (by simp)

lemma strptimeY_valid {y : String} {c : CalDate}
    (h : strptimeY y = some c) :
    validCalDate c = true ∧ c = ⟨digitsToNat y.data, 1, 1⟩ := by
  unfold strptimeY at h
  split at h
  · rename_i hc
    simp only [Bool.and_eq_true, decide_eq_true_eq, and_assoc] at hc
    obtain ⟨hy4, hyd, hy1⟩ := hc
    injection h with h'
    subst h'
    have hyle := digitsToNat_le_9999 _ (isDigitsL_all hyd) hy4
    refine ⟨?_, rfl⟩
    simp only [validCalDate, Bool.and_eq_true, decide_eq_true_eq, and_assoc]
    exact ⟨hy1, hyle, le_refl 1, by omega, le_refl 1,
      le_trans (by omega) (daysInMonth_ge _ _)⟩
  · exact absurd h (by simp)

lemma format_date_full {d : DateObj} {y m dd : String}
    (hy : acceptYear d.year = some y) (hm : acceptMonth d.month = some m)
    (hd : acceptDay d.day = some dd) :
    format_date d = strptimeYMD y m dd := by
  simp only [format_date, hy, hm, hd]

lemma format_date_ym {d : DateObj} {y m : String}
    (hy : acceptYear d.year = some y) (hm : acceptMonth d.month = some m)
    (hd : acceptDay d.day = none) :
    format_date d = strptimeYM y m := by
  simp only [format_date, hy, hm, hd]

lemma format_date_y {d : DateObj} {y : String}
    (hy : acceptYear d.year = some y) (hm : acceptMonth d.month = none) :
    format_date d = strptimeY y := by
  simp only [format_date, hy, hm]

lemma format_date_shape (d : DateObj) :
    format_date d = none ∨ ∃ c, format_date d = some c ∧ validCalDate c = true := by
  rcases hy : acceptYear d.year with _ | y
  · rcases hmd : d.medlineDate with _ | md
    · left
      simp only [format_date, hy, hmd]
    · rcases hf : fourDigitRun md.data with _ | y
      · left
        simp only [format_date, hy, hmd, hf]
      · have hfd : format_date d = strptimeY y := by
          simp only [format_date, hy, hmd, hf]
        rcases hs : strptimeY y with _ | c
        · left; rw [hfd, hs]
        · right
          exact ⟨c, by rw [hfd, hs], (strptimeY_valid hs).1⟩
  · rcases hm : acceptMonth d.month with _ | m
    · have hfd := format_date_y hy hm
      rcases hs : strptimeY y with _ | c
      · left; rw [hfd, hs]
      · right; exact ⟨c, by rw [hfd, hs], (strptimeY_valid hs).1⟩
    · rcases hd : acceptDay d.day with _ | dd
      · have hfd := format_date_ym hy hm hd
        rcases hs : strptimeYM y m with _ | c
        · left; rw [hfd, hs]
        · right; exact ⟨c, by rw [hfd, hs], (strptimeYM_valid hs).1⟩
      · have hfd := format_date_full hy hm hd
        rcases hs : strptimeYMD y m dd with _ | c
        · left; rw [hfd, hs]
        · right; exact ⟨c, by rw [hfd, hs], (strptimeYMD_valid hs).1⟩

lemma validCalDate_parts {c : CalDate} (h : validCalDate c = true) :
    1 ≤ c.year ∧ c.year ≤ 9999 ∧ 1 ≤ c.month ∧ c.month ≤ 12 ∧
      1 ≤ c.day ∧ c.day ≤ daysInMonth c.year c.month := by
  simpa only [validCalDate, Bool.and_eq_true, decide_eq_true_eq, and_assoc] using h

/-- Claim C2 (amended): for every date input whose Year/Month/Day fields pass
the code's field-level acceptance, with the year field exactly 4 digits,
date resolution returns exactly the calendar date those fields denote when
that date is valid, and the missing sentinel when it is not; a year-only
input yields January 1 and a year-plus-month input the 1st of the month. -/
theorem date_resolution_spec :
    (∀ (d : DateObj) (y m dd : String),
      acceptYear d.year = some y → y.data.length = 4 →
      acceptMonth d.month = some m → acceptDay d.day = some dd →
      validCalDate ⟨digitsToNat y.data, digitsToNat m.data, digitsToNat dd.data⟩ = true →
      format_date d = some ⟨digitsToNat y.data, digitsToNat m.data, digitsToNat dd.data⟩) ∧
    (∀ (d : DateObj) (y m dd : String),
      acceptYear d.year = some y →
      acceptMonth d.month = some m → acceptDay d.day = some dd →
      validCalDate ⟨digitsToNat y.data, digitsToNat m.data, digitsToNat dd.data⟩ = false →
      format_date d = none) ∧
    (∀ (d : DateObj) (y : String),
      acceptYear d.year = some y → y.data.length = 4 → 1 ≤ digitsToNat y.data →
      d.month = none → d.day = none →
      format_date d = some ⟨digitsToNat y.data, 1, 1⟩) ∧
    (∀ (d : DateObj) (y m : String),
      acceptYear d.year = some y → y.data.length = 4 → 1 ≤ digitsToNat y.data →
      acceptMonth d.month = some m → d.day = none →
      format_date d = some ⟨digitsToNat y.data, digitsToNat m.data, 1⟩) := by
  refine ⟨?_, ?_, ?_, ?_⟩
  · intro d y m dd hy hy4 hm hd hv
    obtain ⟨hyd, _⟩ := acceptYear_spec hy
    obtain ⟨hm2, hmd, hm1, hm12⟩ := monthStrings_spec m (acceptMonth_canon hm)
    obtain ⟨hd2, hdd, hd1, hd9⟩ := dayStrings_spec dd (acceptDay_canon hd)
    obtain ⟨_, _, _, _, _, hdim⟩ := validCalDate_parts hv
    have hv1 : 1 ≤ digitsToNat y.data := (validCalDate_parts hv).1
    rw [format_date_full hy hm hd]
    unfold strptimeYMD
    rw [if_pos]
    simp only [Bool.and_eq_true, decide_eq_true_eq, and_assoc]
    exact ⟨hy4, hyd, hmd, hdd, hv1, hm1, hm12, hd1, hdim⟩
  · intro d y m dd hy hm hd hv
    rw [format_date_full hy hm hd]
    rcases hs : strptimeYMD y m dd with _ | c
    · rfl
    · obtain ⟨hval, hc⟩ := strptimeYMD_valid hs
      rw [hc] at hval
      rw [hval] at hv
      exact absurd hv (by simp)
  · intro d y hy hy4 hy1 hmn hdn
    have hm : acceptMonth d.month = none := by rw [hmn]; rfl
    rw [format_date_y hy hm]
    unfold strptimeY
    rw [if_pos]
    simp only [Bool.and_eq_true, decide_eq_true_eq, and_assoc]
    exact ⟨hy4, (acceptYear_spec hy).1, hy1⟩
  · intro d y m hy hy4 hy1 hm hdn
    have hd : acceptDay d.day = none := by rw [hdn]; rfl
    obtain ⟨hm2, hmd, hm1, hm12⟩ := monthStrings_spec m (acceptMonth_canon hm)
    rw [format_date_ym hy hm hd]
    unfold strptimeYM
    rw [if_pos]
    simp only [Bool.and_eq_true, decide_eq_true_eq, and_assoc]
    exact ⟨hy4, (acceptYear_spec hy).1, hmd, hy1, hm1, hm12⟩

/-- Witness for C2: concrete dates exercising all four parts. -/
theorem date_resolution_spec_witness :
    format_date ⟨some "2020", some "2", some "5", none⟩ = some ⟨2020, 2, 5⟩ ∧
    format_date ⟨some "0000", some "feb", some "9", none⟩ = none ∧
    format_date ⟨some "2024", none, none, none⟩ = some ⟨2024, 1, 1⟩ ∧
    format_date ⟨some "2024", some "mar", none, none⟩ = some ⟨2024, 3, 1⟩ := by
  refine ⟨?_, ?_, ?_, ?_⟩
  · have h := date_resolution_spec.1 ⟨some "2020", some "2", some "5", none⟩
      "2020" "02" "05" (by decide) (by decide) (by decide) (by decide) (by decide)
    rw [h]; decide
  · exact date_resolution_spec.2.1 ⟨some "0000", some "feb", some "9", none⟩
      "0000" "02" "09" (by decide) (by decide) (by decide) (by decide)
  · have h := date_resolution_spec.2.2.1 ⟨some "2024", none, none, none⟩
      "2024" (by decide) (by decide) (by decide) rfl rfl
    rw [h]; decide
  · have h := date_resolution_spec.2.2.2 ⟨some "2024", some "mar", none, none⟩
      "2024" "03" (by decide) (by decide) (by decide) (by decide) rfl
    rw [h]; decide

/-- Counterexample for C2 as stated: the year field "02020" passes the
code's field-level acceptance (length ≥ 4, digits) and the triple denotes
the valid calendar date 2020-01-01, yet resolution returns missing. -/
theorem date_resolution_year_length_counterexample :
    acceptYear (some "02020") = some "02020" ∧
    acceptMonth (some "1") = some "01" ∧
    acceptDay (some "1") = some "01" ∧
    validCalDate ⟨digitsToNat "02020".data, digitsToNat "01".data,
      digitsToNat "01".data⟩ = true ∧
    format_date ⟨some "02020", some "1", some "1", none⟩ = none ∧
    format_date ⟨some "02020", some "1", some "1", none⟩ ≠ some ⟨2020, 1, 1⟩ := by
  decide

/-- Claim C3: the acceptance step's behavior at the claimed inputs.  The
code rejects every 2-digit numeric month (e.g. "12") and every day outside
1..9 or written with two digits, contradicting both the claim and the
function's own docstring; 1-digit months and 3-letter month/season names
are accepted. -/
theorem month_day_acceptance_behavior :
    acceptMonth (some "12") = none ∧ acceptMonth (some "10") = none ∧
    acceptMonth (some "2") = some "02" ∧ acceptMonth (some "jan") = some "01" ∧
    acceptMonth (some "win") = some "11" ∧
    acceptDay (some "31") = none ∧ acceptDay (some "10") = none ∧
    acceptDay (some "05") = none ∧ acceptDay (some "5") = some "05" ∧
    format_date ⟨some "2021", some "12", none, none⟩ = some ⟨2021, 1, 1⟩ ∧
    format_date ⟨some "2021", some "3", some "25", none⟩ = some ⟨2021, 3, 1⟩ := by
  decide

/-- Claim C8 (amended): the volume token "3-4" resolves to numeric value 3
(the leading digit group), designator kind "Issue Range", and auxiliary
value "4". -/
theorem issue_range_token :
    issue_vol "3-4" = ⟨some 3, some "Issue Range", some "4"⟩ := by decide

/-- Counterexample for C8 as stated: the numeric value of "3-4" is not
missing. -/
theorem issue_range_token_counterexample :
    (issue_vol "3-4").vol ≠ none ∧ (issue_vol "3-4").vol = some 3 := by decide

/-- Claim C7: the field normalizers are total functions whose every result
is well-formed — date resolution yields a valid calendar date or the
missing sentinel, author resolution always yields a name dictionary with
the 1-based order, and volume/issue resolution always yields a result
whose designator kind is one of the four known kinds or missing.  (Each
Python function wraps its body in a catch-all handler returning the
sentinel, so no exception reaches the caller; the embedding is
correspondingly total.) -/
theorem normalizers_total :
    (∀ d : DateObj, format_date d = none ∨
      ∃ c, format_date d = some c ∧ validCalDate c = true) ∧
    (∀ (a : AuthorDict) (i : Nat), (format_author a i).order = i + 1) ∧
    (∀ s : String,
      (issue_vol s).otherType = none ∨ (issue_vol s).otherType = some "Issue Range" ∨
      (issue_vol s).otherType = some "Supplement" ∨ (issue_vol s).otherType = some "Part" ∨
      (issue_vol s).otherType = some "Special No.") := by
  refine ⟨format_date_shape, fun a i => rfl, ?_⟩
  intro s
  unfold issue_vol
  dsimp only
  split
  · dsimp only
    split
    · simp
    · split
      · simp
      · split
        · simp
        · split <;> simp
  · split <;> simp

/-- Claim C9: in the query composer's term normalization, whenever a
last-name term is supplied, the effective first-name and initials terms
are (re-normalizations of) the last-name term's value — each truthy
first-name/initials parameter is overwritten from `last_nm` by the
copy/paste pattern, so the LIKE predicates on those fields search for the
last-name text. -/
theorem query_terms_from_last_name :
    ∀ (t : QueryTerms) (l : String), t.last_nm = some l → truthy t.last_nm = true →
    ∃ e, effTerms t = some e ∧ e.last_nm = some (normTerm l) ∧
      (truthy t.first_nm = true → e.first_nm = some (normTerm (normTerm l))) ∧
      (truthy t.initials_nm = true → e.initials_nm = some (normTerm (normTerm l))) := by
  intro t l hl ht
  rw [hl] at ht
  by_cases hf : truthy t.first_nm = true
  · by_cases hi : truthy t.initials_nm = true
    · refine ⟨⟨(if truthy t.any_nm then t.any_nm.map normTerm else t.any_nm),
        some (normTerm l), some (normTerm (normTerm l)), some (normTerm (normTerm l))⟩,
        ?_, rfl, fun _ => rfl, fun _ => rfl⟩
      simp [effTerms, hl, ht, hf, hi]
    · refine ⟨⟨(if truthy t.any_nm then t.any_nm.map normTerm else t.any_nm),
        some (normTerm l), some (normTerm (normTerm l)), t.initials_nm⟩,
        ?_, rfl, fun _ => rfl, fun h => absurd h hi⟩
      simp [effTerms, hl, ht, hf, hi]
  · by_cases hi : truthy t.initials_nm = true
    · refine ⟨⟨(if truthy t.any_nm then t.any_nm.map normTerm else t.any_nm),
        some (normTerm l), t.first_nm, some (normTerm (normTerm l))⟩,
        ?_, rfl, fun h => absurd h hf, fun _ => rfl⟩
      simp [effTerms, hl, ht, hf, hi]
    · refine ⟨⟨(if truthy t.any_nm then t.any_nm.map normTerm else t.any_nm),
        some (normTerm l), t.first_nm, t.initials_nm⟩,
        ?_, rfl, fun h => absurd h hf, fun h => absurd h hi⟩
      simp [effTerms, hl, ht, hf, hi]

/-- Witness for C9: searching for last "Doe", first "Jane", initials "JQ"
produces LIKE terms "doe" for all three fields. -/
theorem query_terms_from_last_name_witness :
    ∃ e, effTerms ⟨none, some "Doe", some "Jane", some "JQ"⟩ = some e ∧
      e.last_nm = some "doe" ∧ e.first_nm = some "doe" ∧ e.initials_nm = some "doe" := by
  obtain ⟨e, he, h1, h2, h3⟩ :=
    query_terms_from_last_name ⟨none, some "Doe", some "Jane", some "JQ"⟩ "Doe" rfl (by decide)
  refine ⟨e, he, ?_, ?_, ?_⟩
  · rw [h1]; decide
  · rw [h2 (by decide)]; decide
  · rw [h3 (by decide)]; decide

/-- Claim C10: when both Volume and Issue are present and nonempty, the
assembled journal data's designator kind and auxiliary value are exactly
those of resolving the Volume token alone (the Volume step runs second and
overwrites the Issue token's designator outputs), while the numeric issue
comes from the Issue token. -/
theorem volume_overwrites_issue_designator :
    ∀ (record : JournalRec) (ji : JournalIssueRec) (vs istr : String),
      record.journalIssue = some ji → ji.volume = some vs → vs.data.length > 0 →
      ji.issue = some istr → istr.data.length > 0 →
      (journal_content record).other_type = (issue_vol vs).otherType ∧
      (journal_content record).other_val = (issue_vol vs).otherVal ∧
      (journal_content record).volume = (issue_vol vs).vol ∧
      (journal_content record).issue = (issue_vol istr).vol := by
  intro record ji vs istr hji hv hvl hi hil
  have hvl' : 0 < vs.length := hvl
  have hil' : 0 < istr.length := hil
  simp [journal_content, hji, hv, hi, hvl', hil']

/-- Witness for C10: Issue "Suppl 2" resolves to a Supplement designator,
but the numeric Volume "12" processed afterwards leaves the record with no
designator at all. -/
theorem volume_overwrites_issue_designator_witness :
    (journal_content ⟨some "J Test", none, some ⟨some "12", some "Suppl 2", none⟩⟩).other_type
        = none ∧
    (journal_content ⟨some "J Test", none, some ⟨some "12", some "Suppl 2", none⟩⟩).other_val
        = none ∧
    (journal_content ⟨some "J Test", none, some ⟨some "12", some "Suppl 2", none⟩⟩).volume
        = some 12 ∧
    (journal_content ⟨some "J Test", none, some ⟨some "12", some "Suppl 2", none⟩⟩).issue
        = none ∧
    (issue_vol "Suppl 2").otherType = some "Supplement" := by
  obtain ⟨h1, h2, h3, h4⟩ := volume_overwrites_issue_designator
    ⟨some "J Test", none, some ⟨some "12", some "Suppl 2", none⟩⟩
    ⟨some "12", some "Suppl 2", none⟩ "12" "Suppl 2" rfl rfl (by decide) rfl (by decide)
  refine ⟨?_, ?_, ?_, ?_, by decide⟩
  · rw [h1]; decide
  · rw [h2]; decide
  · rw [h3]; decide
  · rw [h4]; decide

/-! ## The end-to-end scenario record (claim C1) -/

/-- The raw record of the end-to-end scenario: PMID 12345, title "Study X",
one author Jane Q / JQ / Doe, journal "J Test" with Volume "12", Issue
"Suppl 2" and PubDate Year "2020" Month "Jan". -/
def c1Record : MedlineCitation :=
  ⟨some "12345", [],
    ⟨some "Study X", none, [], none,
      [⟨some "Jane Q", some "JQ", some "Doe"⟩], none,
      ⟨some "J Test", none,
        some ⟨some "12", some "Suppl 2",
          some ⟨some "2020", some "Jan", none, none⟩⟩⟩⟩⟩

def c1Content : Content := single_record c1Record

/-- The scenario record as the table formatter receives it: one data-frame
row keyed by the article id, carrying the assembled columns and the
embedded author list.  The keyword and language columns (string-serialized
by the data-frame round trip, and both absent in this record) are `none`. -/
def c1Batch : List InRec :=
  [⟨(c1Content.pmid.getD 0),
    ⟨c1Content.title, c1Content.pubdate, none, c1Content.journal,
      c1Content.isoabbrev, c1Content.volume, c1Content.issue,
      c1Content.page_start, c1Content.page_end, none, c1Content.abstract,
      c1Content.other_type, c1Content.other_val⟩,
    c1Content.authors⟩]

/-- Claim C1 (amended): the scenario record normalizes to articleId 12345,
firstName "jane", initials "jq", lastName "doe", volume 12, pubdate
2020-01-01, numauthors 1 and firstAuthor true — but with NO designator:
the numeric Volume token's resolution runs after the Issue token's and
overwrites the "Supplement" designator with missing values. -/
theorem end_to_end_scenario :
    c1Content.pmid = some 12345 ∧
    c1Content.title = some "study x" ∧
    c1Content.journal = some "j test" ∧
    c1Content.volume = some 12 ∧
    c1Content.issue = none ∧
    c1Content.other_type = none ∧
    c1Content.other_val = none ∧
    c1Content.pubdate = some ⟨2020, 1, 1⟩ ∧
    (format_df c1Batch).length = 1 ∧
    (∀ x ∈ format_df c1Batch,
      x.pmid = 12345 ∧ x.first = some "jane" ∧ x.initials = some "jq" ∧
      x.last = some "doe" ∧ x.firstauthor = true ∧ x.numauthors = 1) := by
  decide

/-- Counterexample for C1 as stated: the normalized record's designator
kind is not "Supplement" (the Issue token's designator was overwritten by
the Volume token's resolution). -/
theorem end_to_end_scenario_counterexample :
    c1Content.other_type ≠ some "Supplement" ∧ c1Content.other_type = none := by
  decide

/-! ## Supporting lemmas: the table formatter pipeline -/

lemma explodeOne_pmid {r : InRec} {x : Row} (h : x ∈ explodeOne r) : x.pmid = r.pmid := by
  rcases ha : r.authors with _ | l
  · simp [explodeOne, ha] at h
    rw [h]
  · rcases l with _ | ⟨a, as⟩
    · simp [explodeOne, ha] at h
      rw [h]
    · simp only [explodeOne, ha, List.mem_map] at h
      obtain ⟨a', _, rfl⟩ := h
      rfl

lemma mem_rowsOf_pmid {batch : List InRec} {x : Row}
    (h : x ∈ rowsOf batch) : ∃ r ∈ batch, x.pmid = r.pmid := by
  rw [rowsOf, List.mem_flatMap] at h
  obtain ⟨r, hr, hx⟩ := h
  exact ⟨r, hr, explodeOne_pmid hx⟩

lemma filterKey_map_row (f : Row → Row) (hf : ∀ x, (f x).pmid = x.pmid)
    (rows : List Row) (p : Int) :
    (rows.map f).filter (fun x => x.pmid = p)
      = (rows.filter (fun x => x.pmid = p)).map f := by
  induction rows with
  | nil => simp
  | cons a t ih =>
    by_cases hp : a.pmid = p
    · rw [List.map_cons,
        List.filter_cons_of_pos (by simpa [hf a] using hp),
        List.filter_cons_of_pos (by simpa using hp),
        List.map_cons, ih]
    · rw [List.map_cons,
        List.filter_cons_of_neg (by simpa [hf a] using hp),
        List.filter_cons_of_neg (by simpa using hp), ih]

lemma filterKey_map_frow (f : Row → FRow) (hf : ∀ x, (f x).pmid = x.pmid)
    (rows : List Row) (p : Int) :
    (rows.map f).filter (fun x => x.pmid = p)
      = (rows.filter (fun x => x.pmid = p)).map f := by
  induction rows with
  | nil => simp
  | cons a t ih =>
    by_cases hp : a.pmid = p
    · rw [List.map_cons,
        List.filter_cons_of_pos (by simpa [hf a] using hp),
        List.filter_cons_of_pos (by simpa using hp),
        List.map_cons, ih]
    · rw [List.map_cons,
        List.filter_cons_of_neg (by simpa [hf a] using hp),
        List.filter_cons_of_neg (by simpa using hp), ih]

lemma filter_swap (p q : Row → Bool) (rows : List Row) :
    (rows.filter q).filter p = (rows.filter p).filter q := by
  induction rows with
  | nil => simp
  | cons a t ih =>
    by_cases hq : q a <;> by_cases hp : p a <;>
      simp [List.filter_cons, hq, hp, ih]

lemma explode_filter {batch : List InRec} {r : InRec}
    (hnd : (batch.map InRec.pmid).Nodup) (hr : r ∈ batch) :
    (rowsOf batch).filter (fun x => x.pmid = r.pmid) = explodeOne r := by
  induction batch with
  | nil => cases hr
  | cons b t ih =>
    rw [List.map_cons, List.nodup_cons] at hnd
    rw [rowsOf, List.flatMap_cons, List.filter_append]
    rcases List.mem_cons.mp hr with rfl | hrt
    · have h1 : (explodeOne r).filter (fun x => x.pmid = r.pmid) = explodeOne r := by
        apply List.filter_eq_self.mpr
        intro x hx
        simp [explodeOne_pmid hx]
      have h2 : (t.flatMap explodeOne).filter (fun x => x.pmid = r.pmid) = [] := by
        apply List.filter_eq_nil_iff.mpr
        intro x hx
        obtain ⟨r', hr', hpx⟩ := mem_rowsOf_pmid (by rwa [rowsOf])
        have hne : r.pmid ≠ r'.pmid := by
          intro he
          exact hnd.1 (he ▸ List.mem_map_of_mem InRec.pmid hr')
        simp [hpx]
        exact fun hc => hne hc.symm
      rw [h1, h2, List.append_nil]
    · have h1 : (explodeOne b).filter (fun x => x.pmid = r.pmid) = [] := by
        apply List.filter_eq_nil_iff.mpr
        intro x hx
        have hxb := explodeOne_pmid hx
        have hne : b.pmid ≠ r.pmid := by
          intro he
          exact hnd.1 (he ▸ List.mem_map_of_mem InRec.pmid hrt)
        simp [hxb]
        exact fun hc => hne hc
      rw [h1, List.nil_append]
      exact ih hnd.2 hrt

lemma noneListedFun_pmid (rows : List Row) (x : Row) :
    (noneListedFun rows x).pmid = x.pmid := by
  unfold noneListedFun
  split <;> rfl

lemma failedCaptureFun_pmid (x : Row) : (failedCaptureFun x).pmid = x.pmid := by
  unfold failedCaptureFun
  split <;> rfl

lemma finalizeFun_pmid (rows : List Row) (x : Row) :
    (finalizeFun rows x).pmid = x.pmid := rfl

/-- Per-id slice of the formatter: with distinct article ids, the output
rows of one article are its own exploded rows pushed through the pipeline
(the global per-id row counts frozen at the whole-batch lists). -/
lemma format_df_filter {batch : List InRec} {r : InRec}
    (hnd : (batch.map InRec.pmid).Nodup) (hr : r ∈ batch) :
    (format_df batch).filter (fun x => x.pmid = r.pmid)
      = ((((explodeOne r).map (noneListedFun (rowsOf batch))).map failedCaptureFun).filter
          (fun x => x.last ≠ none)).map (finalizeFun (preRows batch)) := by
  rw [format_df, finalizeRows, filterKey_map_frow _ (finalizeFun_pmid _) _ _]
  congr 1
  rw [preRows, stepDropNoLast, filter_swap, stepFailedCapture,
    filterKey_map_row _ failedCaptureFun_pmid, stepNoneListed,
    filterKey_map_row _ (noneListedFun_pmid _), explode_filter hnd hr]

/-- Claim C4: in a batch with distinct article ids, an article whose raw
author list is empty or missing produces exactly one output row, and that
row carries lastName "None Listed", numauthors 0 and firstAuthor false. -/
theorem formatter_zero_authors :
    ∀ (batch : List InRec) (r : InRec),
      (batch.map InRec.pmid).Nodup → r ∈ batch →
      (r.authors = none ∨ r.authors = some []) →
      (format_df batch).filter (fun x => x.pmid = r.pmid)
        = [⟨r.pmid, normPaper r.paper, false, none, some "None Listed", none, 0⟩] := by
  intro batch r hnd hr ha
  have hex : explodeOne r = [⟨r.pmid, normPaper r.paper, some 0, none, none, none⟩] := by
    rcases ha with ha | ha <;> simp [explodeOne, ha]
  have hcount : pmidCount (rowsOf batch) r.pmid = 1 := by
    rw [pmidCount, explode_filter hnd hr, hex]
    rfl
  rw [format_df_filter hnd hr, hex]
  simp only [List.map_cons, List.map_nil]
  rw [show noneListedFun (rowsOf batch) ⟨r.pmid, normPaper r.paper, some 0, none, none, none⟩
      = ⟨r.pmid, normPaper r.paper, none, none, some "None Listed", none⟩ from by
    unfold noneListedFun
    rw [if_pos ⟨rfl, hcount⟩]]
  rfl

/-- Empty paper columns for concrete test batches. -/
def pcEmpty : PaperCols :=
  ⟨none, none, none, none, none, none, none, none, none, none, none, none, none⟩

/-- Concrete batch for the C4 witness: article 7 with no authors, article 8
with one author. -/
def c4Batch : List InRec :=
  [⟨7, pcEmpty, none⟩, ⟨8, pcEmpty, some [⟨1, some "ann", some "li", some "a"⟩]⟩]

/-- Witness for C4 at a concrete batch. -/
theorem formatter_zero_authors_witness :
    (format_df c4Batch).filter (fun x => x.pmid = 7)
      = [⟨7, normPaper pcEmpty, false, none, some "None Listed", none, 0⟩] :=
  formatter_zero_authors c4Batch ⟨7, pcEmpty, none⟩ (by decide) (by decide) (Or.inl rfl)

/-! ## Supporting lemmas: deduplication and the table splitter -/

lemma dedupFirstAux_sub [DecidableEq α] :
    ∀ (l seen : List α) (x : α), x ∈ dedupFirstAux seen l → x ∈ l := by
  intro l
  induction l with
  | nil => intro seen x h; simp [dedupFirstAux] at h
  | cons a t ih =>
    intro seen x h
    rw [dedupFirstAux] at h
    split at h
    · exact List.mem_cons_of_mem a (ih _ x h)
    · rcases List.mem_cons.mp h with rfl | h'
      · exact List.mem_cons_self _ _
      · exact List.mem_cons_of_mem a (ih _ x h')

lemma dedupFirstAux_not_seen [DecidableEq α] :
    ∀ (l seen : List α) (x : α), x ∈ dedupFirstAux seen l → x ∉ seen := by
  intro l
  induction l with
  | nil => intro seen x h; simp [dedupFirstAux] at h
  | cons a t ih =>
    intro seen x h
    rw [dedupFirstAux] at h
    split at h
    · exact ih _ x h
    · rcases List.mem_cons.mp h with rfl | h'
      · assumption
      · intro hx
        exact ih _ x h' (List.mem_cons_of_mem _ hx)

lemma dedupFirstAux_nodup [DecidableEq α] :
    ∀ (l seen : List α), (dedupFirstAux seen l).Nodup := by
  intro l
  induction l with
  | nil => intro seen; simp [dedupFirstAux]
  | cons a t ih =>
    intro seen
    rw [dedupFirstAux]
    split
    · exact ih _
    · rw [List.nodup_cons]
      refine ⟨fun hmem => ?_, ih _⟩
      exact dedupFirstAux_not_seen _ _ _ hmem (List.mem_cons_self _ _)

lemma mem_dedupFirstAux [DecidableEq α] :
    ∀ (l seen : List α) (x : α), x ∈ l → x ∉ seen → x ∈ dedupFirstAux seen l := by
  intro l
  induction l with
  | nil => intro seen x h; cases h
  | cons a t ih =>
    intro seen x h hx
    rw [dedupFirstAux]
    rcases List.mem_cons.mp h with rfl | h'
    · rw [if_neg hx]
      exact List.mem_cons_self _ _
    · split
      · exact ih _ x h' hx
      · by_cases hxa : x = a
        · exact hxa ▸ List.mem_cons_self _ _
        · exact List.mem_cons_of_mem _ (ih _ x h' (by simp [hx, hxa]))

lemma dedupFirst_mem_iff [DecidableEq α] {l : List α} {x : α} :
    x ∈ dedupFirst l ↔ x ∈ l :=
  ⟨dedupFirstAux_sub l [] x, fun h => mem_dedupFirstAux l [] x h (by simp)⟩

lemma dedupFirst_nodup [DecidableEq α] (l : List α) : (dedupFirst l).Nodup :=
  dedupFirstAux_nodup l []

lemma dedupByKeyAux_sub [DecidableEq β] (key : α → β) :
    ∀ (l : List α) (seen : List β) (x : α), x ∈ dedupByKeyAux key seen l → x ∈ l := by
  intro l
  induction l with
  | nil => intro seen x h; simp [dedupByKeyAux] at h
  | cons a t ih =>
    intro seen x h
    rw [dedupByKeyAux] at h
    split at h
    · exact List.mem_cons_of_mem a (ih _ x h)
    · rcases List.mem_cons.mp h with rfl | h'
      · exact List.mem_cons_self _ _
      · exact List.mem_cons_of_mem a (ih _ x h')

lemma dedupByKeyAux_key_not_seen [DecidableEq β] (key : α → β) :
    ∀ (l : List α) (seen : List β) (x : α),
      x ∈ dedupByKeyAux key seen l → key x ∉ seen := by
  intro l
  induction l with
  | nil => intro seen x h; simp [dedupByKeyAux] at h
  | cons a t ih =>
    intro seen x h
    rw [dedupByKeyAux] at h
    split at h
    · exact ih _ x h
    · rcases List.mem_cons.mp h with rfl | h'
      · assumption
      · intro hx
        exact ih _ x h' (List.mem_cons_of_mem _ hx)

lemma dedupByKeyAux_pairwise [DecidableEq β] (key : α → β) :
    ∀ (l : List α) (seen : List β),
      (dedupByKeyAux key seen l).Pairwise (fun a b => key a ≠ key b) := by
  intro l
  induction l with
  | nil => intro seen; simp [dedupByKeyAux]
  | cons a t ih =>
    intro seen
    rw [dedupByKeyAux]
    split
    · exact ih _
    · rw [List.pairwise_cons]
      refine ⟨fun b hb he => ?_, ih _⟩
      exact dedupByKeyAux_key_not_seen key _ _ b hb (he ▸ List.mem_cons_self _ _)

lemma dedupByKeyAux_surj [DecidableEq β] (key : α → β) :
    ∀ (l : List α) (seen : List β) (x : α), x ∈ l → key x ∉ seen →
      ∃ y ∈ dedupByKeyAux key seen l, key y = key x := by
  intro l
  induction l with
  | nil => intro seen x h; cases h
  | cons a t ih =>
    intro seen x h hx
    rw [dedupByKeyAux]
    rcases List.mem_cons.mp h with rfl | h'
    · rw [if_neg hx]
      exact ⟨x, List.mem_cons_self _ _, rfl⟩
    · split
      · exact ih _ x h' hx
      · by_cases hxa : key x = key a
        · exact ⟨a, List.mem_cons_self _ _, hxa.symm⟩
        · obtain ⟨y, hy, hk⟩ := ih (key a :: seen) x h' (by simp [hx, hxa])
          exact ⟨y, List.mem_cons_of_mem _ hy, hk⟩

lemma dedupByKey_pairwise [DecidableEq β] (key : α → β) (l : List α) :
    (dedupByKey key l).Pairwise (fun a b => key a ≠ key b) :=
  dedupByKeyAux_pairwise key l []

lemma dedupByKey_sub [DecidableEq β] (key : α → β) {l : List α} {x : α}
    (h : x ∈ dedupByKey key l) : x ∈ l :=
  dedupByKeyAux_sub key l [] x h

lemma dedupByKey_surj [DecidableEq β] (key : α → β) {l : List α} {x : α}
    (h : x ∈ l) : ∃ y ∈ dedupByKey key l, key y = key x :=
  dedupByKeyAux_surj key l [] x h (by simp)

lemma nodup_filterMap {f : α → Option β} :
    ∀ l : List α,
      l.Pairwise (fun a b => ∀ v, f a = some v → f b ≠ some v) →
      (l.filterMap f).Nodup := by
  intro l
  induction l with
  | nil => intro _; simp
  | cons a t ih =>
    intro h
    rw [List.pairwise_cons] at h
    rw [List.filterMap_cons]
    rcases hfa : f a with _ | v
    · exact ih h.2
    · rw [List.nodup_cons]
      refine ⟨fun hmem => ?_, ih h.2⟩
      obtain ⟨b, hb, hfb⟩ := List.mem_filterMap.mp hmem
      exact h.1 b hb v hfa hfb

lemma emptyToNone_some {o : Option String} {s : String} (h : emptyToNone o = some s) :
    o = some s := by
  match o with
  | none => simp [emptyToNone] at h
  | some t =>
    simp only [emptyToNone] at h
    split at h
    · cases h
    · exact h

lemma noneListedFun_paper (rows : List Row) (x : Row) :
    (noneListedFun rows x).paper = x.paper := by
  unfold noneListedFun
  split <;> rfl

lemma failedCaptureFun_paper (x : Row) : (failedCaptureFun x).paper = x.paper := by
  unfold failedCaptureFun
  split <;> rfl

lemma explodeOne_paper {r : InRec} {x : Row} (h : x ∈ explodeOne r) :
    x.paper = normPaper r.paper := by
  rcases ha : r.authors with _ | l
  · simp [explodeOne, ha] at h
    rw [h]
  · rcases l with _ | ⟨a, as⟩
    · simp [explodeOne, ha] at h
      rw [h]
    · simp only [explodeOne, ha, List.mem_map] at h
      obtain ⟨a', _, rfl⟩ := h
      rfl

lemma mem_singleton_len {α : Type} {l : List α} (h : l.length ≤ 1) {x y : α}
    (hx : x ∈ l) (hy : y ∈ l) : x = y := by
  match l with
  | [] => cases hx
  | [a] =>
    simp only [List.mem_singleton] at hx hy
    rw [hx, hy]
  | a :: b :: t => simp at h

lemma mem_format_df_origin {batch : List InRec} {x : FRow}
    (hx : x ∈ format_df batch) : ∃ r ∈ batch, x.pmid = r.pmid := by
  rw [format_df, finalizeRows, List.mem_map] at hx
  obtain ⟨w, hw, rfl⟩ := hx
  rw [preRows, stepDropNoLast] at hw
  have hw' := List.mem_of_mem_filter hw
  rw [stepFailedCapture, List.mem_map] at hw'
  obtain ⟨w1, hw1, rfl⟩ := hw'
  rw [stepNoneListed, List.mem_map] at hw1
  obtain ⟨w0, hw0, rfl⟩ := hw1
  obtain ⟨r, hr, hp⟩ := mem_rowsOf_pmid hw0
  refine ⟨r, hr, ?_⟩
  rw [finalizeFun_pmid, failedCaptureFun_pmid, noneListedFun_pmid, hp]

/-- Rows of one article id in the formatted table agree on their
paper-level columns and author count (used for the Papers dedup). -/
lemma format_df_proj_eq {batch : List InRec}
    (hnd : (batch.map InRec.pmid).Nodup)
    (hsent : ∀ r ∈ batch, ∀ a ∈ r.authors.getD [], a.last ≠ some "None Listed") :
    ∀ x ∈ format_df batch, ∀ y ∈ format_df batch, x.pmid = y.pmid →
      x.paper = y.paper ∧ x.numauthors = y.numauthors := by
  intro x hx y hy hxy
  obtain ⟨r, hr, hxr⟩ := mem_format_df_origin hx
  have hxmem : x ∈ (format_df batch).filter (fun z => z.pmid = r.pmid) :=
    List.mem_filter.mpr ⟨hx, by simp [hxr]⟩
  have hymem : y ∈ (format_df batch).filter (fun z => z.pmid = r.pmid) :=
    List.mem_filter.mpr ⟨hy, by simp [hxy ▸ hxr]⟩
  rw [format_df_filter hnd hr] at hxmem hymem
  by_cases hlen : (explodeOne r).length ≤ 1
  · have hchl : (((((explodeOne r).map (noneListedFun (rowsOf batch))).map
        failedCaptureFun).filter (fun z => z.last ≠ none)).map
          (finalizeFun (preRows batch))).length ≤ 1 := by
      rw [List.length_map]
      calc ((((explodeOne r).map (noneListedFun (rowsOf batch))).map
            failedCaptureFun).filter (fun z => z.last ≠ none)).length
          ≤ (((explodeOne r).map (noneListedFun (rowsOf batch))).map
            failedCaptureFun).length := List.length_filter_le _ _
        _ = (explodeOne r).length := by rw [List.length_map, List.length_map]
        _ ≤ 1 := hlen
    rw [mem_singleton_len hchl hxmem hymem]
    exact ⟨rfl, rfl⟩
  · have hlen2 : 2 ≤ (explodeOne r).length := by omega
    have hcount : pmidCount (rowsOf batch) r.pmid = (explodeOne r).length := by
      rw [pmidCount, explode_filter hnd hr]
    have hclaim : ∀ z ∈ ((((explodeOne r).map (noneListedFun (rowsOf batch))).map
        failedCaptureFun).filter (fun w : Row => w.last ≠ none)).map
          (finalizeFun (preRows batch)),
        z.paper = normPaper r.paper ∧
        z.numauthors = pmidCount (preRows batch) r.pmid := by
      intro z hz
      obtain ⟨w, hwmem, rfl⟩ := List.mem_map.mp hz
      have hw' := List.mem_of_mem_filter hwmem
      obtain ⟨w1, hw1, rfl⟩ := List.mem_map.mp hw'
      obtain ⟨w0, hw0, rfl⟩ := List.mem_map.mp hw1
      have hw0p := explodeOne_pmid hw0
      have hnl : noneListedFun (rowsOf batch) w0 = w0 := by
        unfold noneListedFun
        rw [if_neg]
        rintro ⟨_, hc⟩
        rw [hw0p, hcount] at hc
        omega
      rw [hnl] at hwmem ⊢
      have hw0last : w0.last ≠ some "None Listed" := by
        rcases ha : r.authors with _ | l
        · simp [explodeOne, ha] at hlen2
        · rcases l with _ | ⟨a, as⟩
          · simp [explodeOne, ha] at hlen2
          · rw [explodeOne, ha] at hw0
            simp only [List.mem_map] at hw0
            obtain ⟨a', ha', rfl⟩ := hw0
            intro hcon
            exact hsent r hr a' (by rw [ha]; simpa using ha')
              (emptyToNone_some hcon)
      have hfcNL : (failedCaptureFun w0).last ≠ some "None Listed" := by
        unfold failedCaptureFun
        split
        · simp
        · exact hw0last
      constructor
      · show (failedCaptureFun w0).paper = normPaper r.paper
        rw [failedCaptureFun_paper, explodeOne_paper hw0]
      · show (if (failedCaptureFun w0).last = some "None Listed" then 0
            else pmidCount (preRows batch) (failedCaptureFun w0).pmid)
            = pmidCount (preRows batch) r.pmid
        rw [if_neg hfcNL, failedCaptureFun_pmid, hw0p]
    obtain ⟨hxp, hxn⟩ := hclaim x hxmem
    obtain ⟨hyp, hyn⟩ := hclaim y hymem
    rw [hxp, hyp, hxn, hyn]
    exact ⟨rfl, rfl⟩

/-- Claim C5 (amended): for a batch with distinct article ids, author
fields as the assembler produces them (lowercase, so never the sentinel
text), and a full-name key map that is injective on the complete name
triples present (space-containing name fields can collide — the spec's
documented limitation), the splitter's Papers relation has no duplicate
articleId, its Authors relation has no duplicate non-null fullNameKey, and
every AuthorshipPair's articleId occurs in Papers and its fullNameKey
occurs in Authors. -/
theorem splitter_integrity :
    ∀ (batch : List InRec),
      (batch.map InRec.pmid).Nodup →
      (∀ r ∈ batch, ∀ a ∈ r.authors.getD [], a.last ≠ some "None Listed") →
      (∀ x ∈ format_df batch, ∀ y ∈ format_df batch,
          rowFullname x = rowFullname y → rowFullname x ≠ none →
          x.first = y.first ∧ x.last = y.last ∧ x.initials = y.initials) →
      ((split_tables (format_df batch)).1.map PaperRow.pmid).Nodup ∧
      ((split_tables (format_df batch)).2.1.filterMap AuthorRow.fullname).Nodup ∧
      (∀ pr ∈ (split_tables (format_df batch)).2.2,
        (∃ pp ∈ (split_tables (format_df batch)).1, pp.pmid = pr.pmid) ∧
        (∃ a ∈ (split_tables (format_df batch)).2.1, a.fullname = pr.fullname)) := by
  intro batch hnd hsent hinj
  have h1 : (split_tables (format_df batch)).1
      = dedupFirst ((format_df batch).map
          (fun r => PaperRow.mk r.pmid r.paper r.numauthors)) := rfl
  have h2 : (split_tables (format_df batch)).2.1
      = dedupByKey nameTriple ((format_df batch).map
          (fun r => AuthorRow.mk (rowFullname r) r.first r.last r.initials)) := rfl
  have h3 : (split_tables (format_df batch)).2.2
      = dedupFirst ((format_df batch).map
          (fun r => PairRow.mk r.pmid (rowFullname r) r.firstauthor)) := rfl
  refine ⟨?_, ?_, ?_⟩
  · rw [h1]
    apply List.Nodup.map_on ?_ (dedupFirst_nodup _)
    intro a ha b hb he
    obtain ⟨xa, hxa, rfl⟩ := List.mem_map.mp (dedupFirst_mem_iff.mp ha)
    obtain ⟨xb, hxb, rfl⟩ := List.mem_map.mp (dedupFirst_mem_iff.mp hb)
    obtain ⟨hp, hn⟩ := format_df_proj_eq hnd hsent xa hxa xb hxb he
    simp only [PaperRow.mk.injEq]
    exact ⟨he, hp, hn⟩
  · rw [h2]
    apply nodup_filterMap
    apply List.Pairwise.imp_of_mem ?_ (dedupByKey_pairwise nameTriple _)
    intro a b ha hb hk v hva hvb
    obtain ⟨xa, hxa, rfl⟩ := List.mem_map.mp (dedupByKey_sub nameTriple ha)
    obtain ⟨xb, hxb, rfl⟩ := List.mem_map.mp (dedupByKey_sub nameTriple hb)
    have hfa : rowFullname xa = some v := hva
    have hfb : rowFullname xb = some v := hvb
    obtain ⟨he1, he2, he3⟩ := hinj xa hxa xb hxb (hfa.trans hfb.symm) (by rw [hfa]; simp)
    exact hk (by simp only [nameTriple, he1, he2, he3])
  · intro pr hpr
    rw [h3] at hpr
    obtain ⟨x, hx, rfl⟩ := List.mem_map.mp (dedupFirst_mem_iff.mp hpr)
    constructor
    · refine ⟨PaperRow.mk x.pmid x.paper x.numauthors, ?_, rfl⟩
      rw [h1]
      exact dedupFirst_mem_iff.mpr (List.mem_map_of_mem _ hx)
    · obtain ⟨a, ha, hk⟩ := dedupByKey_surj nameTriple (List.mem_map_of_mem
        (fun r => AuthorRow.mk (rowFullname r) r.first r.last r.initials) hx)
      refine ⟨a, by rw [h2]; exact ha, ?_⟩
      obtain ⟨xa, hxa, rfl⟩ := List.mem_map.mp (dedupByKey_sub nameTriple ha)
      simp only [nameTriple, Prod.mk.injEq] at hk
      show rowFullname xa = rowFullname x
      simp only [rowFullname, fullnameKey, hk.1, hk.2.1, hk.2.2]

/-- Concrete batch for the C5 witness: two articles, one with two authors
and one with none. -/
def c5Batch : List InRec :=
  [⟨1, pcEmpty, some [⟨1, some "jane", some "doe", some "jq"⟩,
      ⟨2, some "bob", some "roe", some "b"⟩]⟩,
   ⟨2, pcEmpty, none⟩]

/-- Witness for C5 at a concrete batch. -/
theorem splitter_integrity_witness :
    ((split_tables (format_df c5Batch)).1.map PaperRow.pmid).Nodup ∧
    ((split_tables (format_df c5Batch)).2.1.filterMap AuthorRow.fullname).Nodup ∧
    (∀ pr ∈ (split_tables (format_df c5Batch)).2.2,
      (∃ pp ∈ (split_tables (format_df c5Batch)).1, pp.pmid = pr.pmid) ∧
      (∃ a ∈ (split_tables (format_df c5Batch)).2.1, a.fullname = pr.fullname)) :=
  splitter_integrity c5Batch (by decide) (by decide) (by decide)

/-- Concrete batch whose two distinct author name triples render the same
full-name key ("x" + " " + "a b" + " " + "c" and "x" + " " + "a" + " " +
"b c" both give "x a b c"). -/
def c5CollisionBatch : List InRec :=
  [⟨1, pcEmpty, some [⟨1, some "c", some "a b", some "x"⟩,
      ⟨2, some "b c", some "a", some "x"⟩]⟩]

/-- Counterexample for C5 as stated: a formatted table on which the
Authors relation keeps two rows with the same (non-null) fullNameKey. -/
theorem splitter_integrity_counterexample :
    ¬ ((split_tables (format_df c5CollisionBatch)).2.1.map AuthorRow.fullname).Nodup ∧
    ¬ ((split_tables (format_df c5CollisionBatch)).2.1.filterMap AuthorRow.fullname).Nodup := by
  decide

/-! ## Supporting lemmas: the no-term query -/

lemma dedupFirst_length_toFinset [DecidableEq α] (l : List α) :
    (dedupFirst l).length = l.toFinset.card := by
  have h1 : (dedupFirst l).toFinset = l.toFinset := by
    ext a
    simp [List.mem_toFinset, dedupFirst_mem_iff]
  rw [← List.toFinset_card_of_nodup (dedupFirst_nodup l), h1]

lemma mem_joinFullnames {papers : List PaperRow} {pairs : List PairRow}
    {authors : List AuthorRow} {v : Option String} :
    v ∈ (joinCombos papers pairs authors).map (fun c => c.2.1.fullname) ↔
    ∃ pr ∈ pairs, pr.fullname = v ∧ (∃ p ∈ papers, p.pmid = pr.pmid) ∧
      (∃ a ∈ authors, sqlEqOpt pr.fullname a.fullname = true) := by
  constructor
  · intro h
    obtain ⟨c, hc, rfl⟩ := List.mem_map.mp h
    rw [joinCombos, List.mem_flatMap] at hc
    obtain ⟨p, hp, hc⟩ := hc
    rw [List.mem_flatMap] at hc
    obtain ⟨pr, hpr, hc⟩ := hc
    rw [List.mem_filterMap] at hc
    obtain ⟨a, ha, hif⟩ := hc
    split at hif
    · rename_i hcond
      injection hif with hif
      subst hif
      simp only [Bool.and_eq_true, beq_iff_eq] at hcond
      exact ⟨pr, hpr, rfl, ⟨p, hp, hcond.2⟩, ⟨a, ha, hcond.1⟩⟩
    · cases hif
  · rintro ⟨pr, hpr, rfl, ⟨p, hp, hpm⟩, ⟨a, ha, hs⟩⟩
    rw [List.mem_map]
    refine ⟨(p, pr, a), ?_, rfl⟩
    rw [joinCombos, List.mem_flatMap]
    refine ⟨p, hp, ?_⟩
    rw [List.mem_flatMap]
    refine ⟨pr, hpr, ?_⟩
    rw [List.mem_filterMap]
    refine ⟨a, ha, ?_⟩
    rw [if_pos]
    simp only [Bool.and_eq_true, beq_iff_eq]
    exact ⟨hs, hpm⟩

/-- Claim C6 (amended): the no-term query's row count equals the number of
DISTINCT author full-name keys among the AuthorshipPairs that join to an
existing Paper and Author (the query groups by the author key, so an
author with several papers contributes one row, and a pair with a null key
joins nothing). -/
theorem query_no_terms_count :
    ∀ (papers : List PaperRow) (pairs : List PairRow) (authors : List AuthorRow),
      queryNoTermCount papers pairs authors
        = ((pairs.filter (fun pr => (papers.any (fun p => p.pmid == pr.pmid)) &&
            (authors.any (fun a => sqlEqOpt pr.fullname a.fullname)))).map
              PairRow.fullname).toFinset.card := by
  intro papers pairs authors
  rw [queryNoTermCount, queryNoTermGroups, dedupFirst_length_toFinset]
  congr 1
  ext v
  rw [List.mem_toFinset, List.mem_toFinset, mem_joinFullnames]
  constructor
  · rintro ⟨pr, hpr, rfl, ⟨p, hp, hpm⟩, ⟨a, ha, hs⟩⟩
    rw [List.mem_map]
    refine ⟨pr, ?_, rfl⟩
    rw [List.mem_filter]
    refine ⟨hpr, ?_⟩
    simp only [Bool.and_eq_true, List.any_eq_true, beq_iff_eq]
    exact ⟨⟨p, hp, hpm⟩, ⟨a, ha, hs⟩⟩
  · intro h
    obtain ⟨pr, hmem, rfl⟩ := List.mem_map.mp h
    rw [List.mem_filter] at hmem
    obtain ⟨hpr, hcond⟩ := hmem
    simp only [Bool.and_eq_true, List.any_eq_true, beq_iff_eq] at hcond
    exact ⟨pr, hpr, rfl, hcond.1, hcond.2⟩

/-- Concrete database for the C6 counterexample: one author on two papers,
two authorship pairs. -/
def c6Papers : List PaperRow := [⟨1, pcEmpty, 1⟩, ⟨2, pcEmpty, 1⟩]

def c6Authors : List AuthorRow := [⟨some "k", some "f", some "l", some "i"⟩]

def c6Pairs : List PairRow := [⟨1, some "k", true⟩, ⟨2, some "k", false⟩]

/-- Counterexample for C6 as stated: the no-term query returns 1 row (one
per distinct author key), not 2 (the number of AuthorshipPairs joined to
existing Papers). -/
theorem query_no_terms_count_counterexample :
    queryNoTermCount c6Papers c6Pairs c6Authors
        ≠ (c6Pairs.filter (fun pr => c6Papers.any (fun p => p.pmid == pr.pmid))).length ∧
    queryNoTermCount c6Papers c6Pairs c6Authors = 1 ∧
    (c6Pairs.filter (fun pr => c6Papers.any (fun p => p.pmid == pr.pmid))).length = 2 := by
  decide

end PubmedTool
